import Mathlib

/-!
Verification of the fissio pipeline-execution engine
(`fissio-engine`, `fissio-config`) and the `agent-network` Ollama
metrics against their natural-language specification.

The Rust source is shallowly embedded: pure functions become Lean
functions, the stateful DAG traversal becomes explicit state passing
with a fuel parameter standing in for general recursion, machine
integers become `Nat`, LLM calls and tool executions become oracle
function parameters, and fallible code returns `Except`.
-/

namespace Fissio

/-! ## Association-list helpers

The Rust code uses `HashMap<String, _>`; only `get` and a replacing
`insert` are exercised, so a prepend-and-first-match association list
is an adequate model (the most recent insert wins on lookup, exactly
as a replacing map insert does). -/

/-- Lookup in an association list: the first (most recently inserted)
binding for the key, as `HashMap::get`. -/
def alistGet {α : Type} (l : List (String × α)) (k : String) : Option α :=
  (l.find? (fun p => p.1 == k)).map (·.2)

/-- Replacing insert modeled by prepending, as `HashMap::insert`. -/
def alistInsert {α : Type} (l : List (String × α)) (k : String) (v : α) :
    List (String × α) :=
  (k, v) :: l

/-- Set insert on a list used as a finite set, as `HashSet::insert`. -/
def setInsert (l : List String) (x : String) : List String :=
  if x ∈ l then l else l ++ [x]

/-! ## `agent-network/src/ollama.rs`: performance metrics

`OllamaMetrics` fields are `u64`/`u32` nanosecond durations and token
counts; only division is applied, so `Nat` models them exactly.
`tokens_per_sec` computes in `f64`, modeled by Lean's `Float` (IEEE
binary64, matching Rust `f64` division). -/

/-- Performance metrics from Ollama's native API
(`OllamaMetrics`, ollama.rs). -/
structure OllamaMetrics where
  total_duration : Nat
  load_duration : Nat
  prompt_eval_count : Nat
  prompt_eval_duration : Nat
  eval_count : Nat
  eval_duration : Nat

/-- `OllamaMetrics::tokens_per_sec` (ollama.rs): 0.0 on a zero
`eval_duration`, otherwise `eval_count as f64 / (eval_duration as f64 / 1e9)`. -/
def OllamaMetrics.tokens_per_sec (m : OllamaMetrics) : Float :=
  if m.eval_duration = 0 then 0.0
  else (Float.ofNat m.eval_count) / (Float.ofNat m.eval_duration / 1000000000.0)

/-- `OllamaMetrics::total_duration_ms` (ollama.rs). -/
def OllamaMetrics.total_duration_ms (m : OllamaMetrics) : Nat :=
  m.total_duration / 1000000

/-- `OllamaMetrics::load_duration_ms` (ollama.rs). -/
def OllamaMetrics.load_duration_ms (m : OllamaMetrics) : Nat :=
  m.load_duration / 1000000

/-- `OllamaMetrics::prompt_eval_ms` (ollama.rs). -/
def OllamaMetrics.prompt_eval_ms (m : OllamaMetrics) : Nat :=
  m.prompt_eval_duration / 1000000

/-- `OllamaMetrics::eval_ms` (ollama.rs). -/
def OllamaMetrics.eval_ms (m : OllamaMetrics) : Nat :=
  m.eval_duration / 1000000

/-- A value `q` is the truncating (integer) quotient of `a` by `1_000_000`:
`q * 10^6 ≤ a < (q + 1) * 10^6`.  This pins down what "integer division"
means beyond restating the `/` operator. -/
def isMsQuotient (q a : Nat) : Prop :=
  q * 1000000 ≤ a ∧ a < (q + 1) * 1000000

/-! ## `fissio-config/src/lib.rs`: the pipeline data model -/

/-- A JSON value, modeling `serde_json::Value`.  Numbers are modeled as
`Int`: the claims under verification exercise no arithmetic on JSON
numbers, only structural (de)serialization, for which any faithful
number carrier works. -/
inductive Json where
  | null : Json
  | bool (b : Bool) : Json
  | num (n : Int) : Json
  | str (s : String) : Json
  | arr (xs : List Json) : Json
  | obj (fields : List (String × Json)) : Json

/-- `NodeType` (fissio-config): the closed nine-variant enumeration. -/
inductive NodeType where
  | Llm | Gate | Router | Coordinator | Aggregator
  | Orchestrator | Worker | Synthesizer | Evaluator
deriving DecidableEq

/-- `EdgeType` (fissio-config). -/
inductive EdgeType where
  | Direct | Dynamic | Conditional | Parallel
deriving DecidableEq

/-- `impl FromStr for EdgeType` (fissio-config): unknown strings fall
back to `Direct`.  The Rust function returns `Result<Self, ()>` but every
arm is `Ok`, so it is total. -/
def EdgeType.from_str (s : String) : EdgeType :=
  match s with
  | "parallel" => EdgeType.Parallel
  | "dynamic" => EdgeType.Dynamic
  | "conditional" => EdgeType.Conditional
  | _ => EdgeType.Direct

/-- `EdgeEndpoint` (fissio-config): a single node ID or a list of IDs. -/
inductive EdgeEndpoint where
  | Single (s : String) : EdgeEndpoint
  | Multiple (v : List String) : EdgeEndpoint

/-- `EdgeEndpoint::as_vec` (fissio-config). -/
def EdgeEndpoint.as_vec : EdgeEndpoint → List String
  | EdgeEndpoint.Single s => [s]
  | EdgeEndpoint.Multiple v => v

/-- `NodeConfig` (fissio-config). -/
structure NodeConfig where
  id : String
  node_type : NodeType
  model : Option String
  config : Json
  prompt : Option String
  tools : List String

/-- `EdgeConfig` (fissio-config).  `from` is a Lean keyword, so the
source fields `from` and `to` are rendered `from_` and `to_`. -/
structure EdgeConfig where
  from_ : EdgeEndpoint
  to_ : EdgeEndpoint
  edge_type : EdgeType

/-- `PipelineConfig` (fissio-config). -/
structure PipelineConfig where
  id : String
  name : String
  description : String
  nodes : List NodeConfig
  edges : List EdgeConfig

/-- `NodeType::requires_llm` (fissio-config). -/
def NodeType.requires_llm : NodeType → Bool
  | NodeType.Llm => true
  | NodeType.Worker => true
  | _ => false

/-- `NodeType::is_router` (fissio-config). -/
def NodeType.is_router : NodeType → Bool
  | NodeType.Router => true
  | _ => false

/-! ## `fissio-engine/src/lib.rs`: input materialization

`PipelineEngine::get_input_for_node` depends only on the edge list and
the context map, so it is embedded as a function of those. -/

/-- The separator joining predecessor outputs
(`get_input_for_node`, fissio-engine). -/
def inputSeparator : String := "\n\n---\n\n"

/-- `PipelineEngine::get_input_for_node` (fissio-engine lines 381-400):
scan the edges in order; for an edge whose `to` list contains the node,
collect the context values of its `from` IDs; if any are present return
them joined; otherwise keep scanning; at the end fall back to
`context["input"]` or the empty string. -/
def get_input_for_node (edges : List EdgeConfig) (node_id : String)
    (ctx : List (String × String)) : String :=
  match edges with
  | [] => (alistGet ctx "input").getD ""
  | e :: rest =>
    if node_id ∈ e.to_.as_vec then
      let inputs := e.from_.as_vec.filterMap (alistGet ctx)
      if inputs.isEmpty then get_input_for_node rest node_id ctx
      else String.intercalate inputSeparator inputs
    else get_input_for_node rest node_id ctx

/-! ## Core engine types (`fissio-core`, `fissio-llm`, `fissio-tools`)

LLM calls and tool executions perform network / process I/O; they are
modeled as oracle function parameters.  `AgentError` is modeled by
`Err`; the engine itself only ever constructs `LlmError`, and
`fuelExhausted` is the artifact marking exhaustion of the fuel that
stands in for the source's unbounded recursion. -/

/-- A conversation message (`fissio_core::Message`). -/
structure Message where
  role : String
  content : String

/-- Errors (`fissio_core::AgentError`, restricted to what the engine
produces, plus the fuel-exhaustion modeling artifact). -/
inductive Err where
  | LlmError (msg : String) : Err
  | fuelExhausted : Err
deriving DecidableEq

/-- `NodeOutput` (fissio-engine). -/
structure NodeOutput where
  content : String
  next_nodes : List String

/-- `EngineOutput` (fissio-engine).  The engine never constructs
`Stream`, so the `LlmStream` payload is irrelevant and modeled by
`Unit`. -/
inductive EngineOutput where
  | Stream (s : Unit) : EngineOutput
  | Complete (s : String) : EngineOutput
deriving DecidableEq

/-- `fissio_core::ModelConfig` (the fields the engine reads). -/
structure ModelConfig where
  id : String
  name : String
  model : String
  api_base : Option String

/-- `ModelResolver` (fissio-engine). -/
structure ModelResolver where
  models : List (String × ModelConfig)
  default_model : ModelConfig

/-- `ModelResolver::new` (fissio-engine). -/
def ModelResolver.new (models : List ModelConfig) (default : ModelConfig) :
    ModelResolver :=
  { models := models.map (fun m => (m.id, m)), default_model := default }

/-- `ModelResolver::resolve` (fissio-engine). -/
def ModelResolver.resolve (r : ModelResolver) (model_id : Option String) :
    ModelConfig :=
  ((model_id.bind (fun id => alistGet r.models id))).getD r.default_model

/-- A registered tool (`fissio_tools::Tool`): name, description, JSON
parameter schema, and an execution function.  Execution is external
I/O, modeled as a function into `Except String String` exactly as the
trait method `execute(args) -> Result<String, _>`. -/
structure ToolDef where
  name : String
  description : String
  parameters : Json
  execute : Json → Except String String

/-- `fissio_tools::ToolRegistry`: a name-to-tool map. -/
def ToolRegistry := List (String × ToolDef)

/-- `ToolRegistry::get`. -/
def registry_get (r : ToolRegistry) (nm : String) : Option ToolDef :=
  alistGet r nm

/-- `fissio_llm::ToolSchema`. -/
structure ToolSchema where
  name : String
  description : String
  parameters : Json

/-- `fissio_llm::ToolCall`. -/
structure ToolCall where
  id : String
  name : String
  arguments : Json

/-- `fissio_llm::ChatResponse`: terminal content or tool calls
(the engine ignores the metrics on `ToolCalls`). -/
inductive ChatResponse where
  | Content (content : String) : ChatResponse
  | ToolCalls (calls : List ToolCall) : ChatResponse

/-- Chat messages built by the agentic loop
(`UnifiedLlmClient::user_message` / `tool_result_message`).  The Rust
constructors return `Result` but only fail on JSON serialization of a
plain string, which cannot fail, so they are modeled total. -/
inductive Msg where
  | user (content : String) : Msg
  | tool_result (id : String) (content : String) : Msg

/-- `user_message` (fissio-llm). -/
def user_message (input : String) : Msg := Msg.user input

/-- `tool_result_message` (fissio-llm). -/
def tool_result_message (id : String) (result : String) : Msg :=
  Msg.tool_result id result

/-- The LLM provider, as an oracle.  `chat` models
`UnifiedLlmClient::chat` for a given model; `chat_with_tools` models
`UnifiedLlmClient::chat_with_tools`, with an extra leading `Nat` giving
the ordinal of the call within one agentic loop (ghost instrumentation
used only to state claims about call sequences). -/
structure LlmOracle where
  chat : ModelConfig → String → String → Except Err String
  chat_with_tools : ModelConfig → Nat → String → List Msg → List ToolSchema →
    Option (List ToolCall) → Except Err ChatResponse

/-! ## `fissio-engine`: router execution (lines 481-520) -/

/-- The classification prompt built by `execute_router`
(fissio-engine): the node prompt (or the default), the classifier
instructions, and the permitted target list. -/
def routing_prompt_of (prompt : Option String) (targets_list : String) : String :=
  (prompt.getD "Classify the following input and route to the appropriate target.") ++
  "\n\nYou are a routing classifier. Based on the input, determine which target to route to.\nAvailable targets: [" ++
  targets_list ++
  "]\n\nIMPORTANT: Respond with ONLY the target name, nothing else. No explanation, no punctuation."

/-- `execute_router` (fissio-engine lines 481-520): call the LLM with
the routing prompt, normalize the reply by trimming and lowercasing,
pick the first outgoing target whose lowercased ID equals it, falling
back to the first outgoing target; return the raw reply plus the
chosen targets. -/
def execute_router (chat : String → String → Except Err String)
    (prompt : Option String) (input : String) (outgoing_targets : List String) :
    Except Err (String × List String) :=
  let targets_list := String.intercalate ", " outgoing_targets
  let routing_prompt := routing_prompt_of prompt targets_list
  match chat routing_prompt input with
  | Except.error e => Except.error e
  | Except.ok content =>
    let decision := content.trim.toLower
    let matched := outgoing_targets.find? (fun t => t.toLower == decision)
    let next_nodes :=
      match matched with
      | some target => [target]
      | none =>
        match outgoing_targets.head? with
        | some t => [t]
        | none => []
    Except.ok (content, next_nodes)

/-! ## `fissio-engine`: the agentic tool loop (lines 434-435, 522-620) -/

/-- `MAX_TOOL_ITERATIONS` (fissio-engine line 435). -/
def MAX_TOOL_ITERATIONS : Nat := 10

/-- Processing of one `ToolCalls` response inside the agentic loop
(fissio-engine lines 599-613): for each call in order, look the tool up
(missing tool fails the request with an LLM error), execute it
(execution failure likewise), and produce one tool-result message per
call, in order. -/
def process_calls (registry : ToolRegistry) : List ToolCall → Except Err (List Msg)
  | [] => Except.ok []
  | call :: rest =>
    match registry_get registry call.name with
    | none => Except.error (Err.LlmError ("Tool not found: " ++ call.name))
    | some tool =>
      match tool.execute call.arguments with
      | Except.error e =>
        Except.error (Err.LlmError ("Tool execution failed: " ++ e))
      | Except.ok result =>
        (process_calls registry rest).map
          (fun msgs => tool_result_message call.id result :: msgs)

/-- The agentic loop of `execute_node_with_tools` (fissio-engine lines
560-619).  `iterations` is the counter value before entering the loop
body; each pass increments it and fails once it exceeds
`MAX_TOOL_ITERATIONS` without a further chat call.  The second
component of the result counts the tool-aware chat calls made (ghost
instrumentation). -/
def tool_loop
    (chatT : Nat → String → List Msg → List ToolSchema → Option (List ToolCall) →
      Except Err ChatResponse)
    (registry : ToolRegistry) (system_prompt : String)
    (tool_schemas : List ToolSchema) (messages : List Msg)
    (pending_tool_calls : Option (List ToolCall)) (iterations : Nat) :
    Except Err String × Nat :=
  if _h : iterations + 1 > MAX_TOOL_ITERATIONS then
    (Except.error (Err.LlmError
      ("Max tool iterations (" ++ toString MAX_TOOL_ITERATIONS ++ ") exceeded")), 0)
  else
    match chatT (iterations + 1) system_prompt messages tool_schemas pending_tool_calls with
    | Except.error e => (Except.error e, 1)
    | Except.ok (ChatResponse.Content c) => (Except.ok c, 1)
    | Except.ok (ChatResponse.ToolCalls calls) =>
      match process_calls registry calls with
      | Except.error e => (Except.error e, 1)
      | Except.ok new_msgs =>
        let r := tool_loop chatT registry system_prompt tool_schemas
          (messages ++ new_msgs) (some calls) (iterations + 1)
        (r.1, r.2 + 1)
termination_by MAX_TOOL_ITERATIONS + 1 - iterations
decreasing_by
  simp_wf
  omega

/-- Schema resolution for the configured tool names (fissio-engine
lines 541-550): unknown names are silently skipped. -/
def tool_schemas_of (registry : ToolRegistry) (tools : List String) :
    List ToolSchema :=
  tools.filterMap (fun nm => (registry_get registry nm).map (fun t =>
    { name := t.name, description := t.description, parameters := t.parameters }))

/-- `execute_node_with_tools` (fissio-engine lines 522-620).  The
second component counts the tool-aware chat calls made (ghost); the
tools-empty and empty-schema paths make a plain chat call and no
tool-aware call. -/
def execute_node_with_tools (chat : String → String → Except Err String)
    (chatT : Nat → String → List Msg → List ToolSchema → Option (List ToolCall) →
      Except Err ChatResponse)
    (registry : ToolRegistry) (prompt : Option String) (input : String)
    (tools : List String) : Except Err String × Nat :=
  let system_prompt := prompt.getD ""
  if tools.isEmpty then (chat system_prompt input, 0)
  else
    let tool_schemas := tool_schemas_of registry tools
    if tool_schemas.isEmpty then (chat system_prompt input, 0)
    else tool_loop chatT registry system_prompt tool_schemas
      [user_message input] none 0

/-- `execute_node` (fissio-engine lines 440-478): routers classify via
`execute_router`; LLM-bearing nodes run `execute_node_with_tools`; all
other node types pass their input through unchanged with no routing
decision.  `step` is used by the source only for logging. -/
def execute_node (oracle : LlmOracle) (registry : ToolRegistry)
    (node_id : String) (node_type : NodeType) (model : ModelConfig)
    (prompt : Option String) (input : String) (tools : List String)
    (step : Nat) (outgoing_targets : List String) : Except Err NodeOutput :=
  if node_type.is_router then
    match execute_router (oracle.chat model) prompt input outgoing_targets with
    | Except.error e => Except.error e
    | Except.ok (content, next_nodes) =>
      Except.ok { content := content, next_nodes := next_nodes }
  else if node_type.requires_llm then
    match (execute_node_with_tools (oracle.chat model)
        (oracle.chat_with_tools model) registry prompt input tools).1 with
    | Except.error e => Except.error e
    | Except.ok content => Except.ok { content := content, next_nodes := [] }
  else
    Except.ok { content := input, next_nodes := [] }

/-! ## `fissio-engine`: the pipeline engine and DAG traversal

The traversal (`process_edge` / `execute_parallel` /
`execute_sequential` / `process_outgoing_edges`) is an unbounded
recursion over edges in the source; it is embedded with a fuel
parameter, every recursive call consuming one unit and exhaustion
reported as `Err.fuelExhausted`.  On any fuel large enough for the
given configuration the embedding computes exactly the source's
result.

The per-request shared state (context map, executed set, step counter)
becomes an explicit `EngState`; parallel fan-out is linearized, which
preserves every observable the specification constrains (all sibling
writes land before successor scheduling; sibling execution order is
unobservable).  `trace` is ghost instrumentation recording the node
IDs passed to `execute_node`, in call order. -/

/-- `PipelineEngine` (fissio-engine). -/
structure PipelineEngine where
  config : PipelineConfig
  resolver : ModelResolver
  node_overrides : List (String × String)
  tool_registry : ToolRegistry

/-- `PipelineEngine::get_node` (fissio-engine). -/
def PipelineEngine.get_node (eng : PipelineEngine) (id : String) :
    Option NodeConfig :=
  eng.config.nodes.find? (fun n => n.id == id)

/-- `PipelineEngine::get_node_model` (fissio-engine): override, then the
node's own model, resolved with fallback to the default. -/
def PipelineEngine.get_node_model (eng : PipelineEngine) (node : NodeConfig) :
    ModelConfig :=
  eng.resolver.resolve ((alistGet eng.node_overrides node.id).or node.model)

/-- `PipelineEngine::get_outgoing_edges` (fissio-engine). -/
def PipelineEngine.get_outgoing_edges (eng : PipelineEngine) (node_id : String) :
    List EdgeConfig :=
  eng.config.edges.filter (fun e => e.from_.as_vec.contains node_id)

/-- `PipelineEngine::get_outgoing_targets` (fissio-engine lines
193-199): all target IDs of outgoing edges, `"output"` excluded. -/
def PipelineEngine.get_outgoing_targets (eng : PipelineEngine) (node_id : String) :
    List String :=
  ((eng.get_outgoing_edges node_id).map (fun e => e.to_.as_vec)).flatten.filter
    (fun t => t != "output")

/-- The per-request shared state: context map, executed set, step
counter, plus the ghost invocation trace. -/
structure EngState where
  context : List (String × String)
  executed : List String
  step : Nat
  trace : List String

/-- The per-node data gathered before a parallel fan-out
(fissio-engine lines 291-298): for each target not yet executed that
names a known node, its identifying data, its materialized input, and
its outgoing targets, all read against the pre-batch state. -/
structure NodeData where
  id : String
  node_type : NodeType
  model : ModelConfig
  prompt : Option String
  tools : List String
  input : String
  outgoing : List String

/-- The gather phase of `execute_parallel` (fissio-engine lines
290-298). -/
def gather_node_data (eng : PipelineEngine) (target_ids : List String)
    (st : EngState) : List NodeData :=
  (target_ids.filter (fun id => !(st.executed.contains id))).filterMap
    (fun id => (eng.get_node id).map (fun node =>
      { id := id, node_type := node.node_type,
        model := eng.get_node_model node,
        prompt := node.prompt, tools := node.tools,
        input := get_input_for_node eng.config.edges id st.context,
        outgoing := eng.get_outgoing_targets id }))

/-- The execution phase of `execute_parallel` (fissio-engine lines
300-318): run `execute_node` for each gathered node, each with a fresh
step ordinal; collect the outputs in gather order (as `join_all`
does).  Any failure aborts with the first failing node's error. -/
def run_nodes (oracle : LlmOracle) (registry : ToolRegistry) :
    List NodeData → Nat → List String →
    Except Err (List (String × NodeOutput) × Nat × List String)
  | [], step, trace => Except.ok ([], step, trace)
  | d :: rest, step, trace =>
    match execute_node oracle registry d.id d.node_type d.model d.prompt
        d.input d.tools (step + 1) d.outgoing with
    | Except.error e => Except.error e
    | Except.ok out =>
      match run_nodes oracle registry rest (step + 1) (trace ++ [d.id]) with
      | Except.error e => Except.error e
      | Except.ok (res, s, t) => Except.ok ((d.id, out) :: res, s, t)

/-- The store phase of `execute_parallel` (fissio-engine lines
320-329): write each output into the context, record nonempty
router decisions, and mark each node executed. -/
def store_results :
    List (String × NodeOutput) → EngState → List (String × List String) →
    EngState × List (String × List String)
  | [], st, dec => (st, dec)
  | (id, out) :: rest, st, dec =>
    let st' := { st with context := alistInsert st.context id out.content,
                         executed := setInsert st.executed id }
    let dec' := if out.next_nodes.isEmpty then dec
                else alistInsert dec id out.next_nodes
    store_results rest st' dec'

mutual

/-- `PipelineEngine::process_edge` (fissio-engine lines 255-276):
an edge pointing only at the sink returns immediately; a parallel edge
fans out; anything else runs its targets sequentially. -/
def process_edge (eng : PipelineEngine) (oracle : LlmOracle)
    (history : List Message) :
    Nat → EdgeConfig → EngState → Except Err EngState
  | 0, _, _ => Except.error Err.fuelExhausted
  | fuel + 1, edge, st =>
    let target_ids := edge.to_.as_vec
    if target_ids = ["output"] then Except.ok st
    else if edge.edge_type = EdgeType.Parallel then
      execute_parallel eng oracle history fuel target_ids st
    else
      execute_sequential eng oracle history fuel target_ids st

/-- `PipelineEngine::execute_parallel` (fissio-engine lines 279-341):
gather, execute, store, then process every target's outgoing edges. -/
def execute_parallel (eng : PipelineEngine) (oracle : LlmOracle)
    (history : List Message) :
    Nat → List String → EngState → Except Err EngState
  | 0, _, _ => Except.error Err.fuelExhausted
  | fuel + 1, target_ids, st =>
    let node_data := gather_node_data eng target_ids st
    match run_nodes oracle eng.tool_registry node_data st.step st.trace with
    | Except.error e => Except.error e
    | Except.ok (results, step', trace') =>
      let p := store_results results { st with step := step', trace := trace' } []
      process_outgoing_all eng oracle history fuel target_ids p.2 p.1

/-- The trailing loop of `execute_parallel` (fissio-engine lines
334-338): process outgoing edges of every original target, each
filtered by that target's recorded router decision. -/
def process_outgoing_all (eng : PipelineEngine) (oracle : LlmOracle)
    (history : List Message) :
    Nat → List String → List (String × List String) → EngState →
    Except Err EngState
  | 0, _, _, _ => Except.error Err.fuelExhausted
  | _fuel + 1, [], _, st => Except.ok st
  | fuel + 1, id :: rest, decisions, st =>
    match process_outgoing_edges eng oracle history fuel id
        ((alistGet decisions id).getD []) st with
    | Except.error e => Except.error e
    | Except.ok st' => process_outgoing_all eng oracle history fuel rest decisions st'

/-- `PipelineEngine::execute_sequential` (fissio-engine lines 344-378):
run each target in order, skipping the sink, already-executed IDs and
unknown IDs; after each node, process its outgoing edges filtered by
its routing decision. -/
def execute_sequential (eng : PipelineEngine) (oracle : LlmOracle)
    (history : List Message) :
    Nat → List String → EngState → Except Err EngState
  | 0, _, _ => Except.error Err.fuelExhausted
  | _fuel + 1, [], st => Except.ok st
  | fuel + 1, node_id :: rest, st =>
    if node_id ∈ st.executed ∨ node_id = "output" then
      execute_sequential eng oracle history fuel rest st
    else
      match eng.get_node node_id with
      | none => execute_sequential eng oracle history fuel rest st
      | some node =>
        let input := get_input_for_node eng.config.edges node_id st.context
        let outgoing := eng.get_outgoing_targets node_id
        let step' := st.step + 1
        match execute_node oracle eng.tool_registry node_id node.node_type
            (eng.get_node_model node) node.prompt input node.tools step' outgoing with
        | Except.error e => Except.error e
        | Except.ok out =>
          let st1 : EngState :=
            { context := alistInsert st.context node_id out.content,
              executed := setInsert st.executed node_id,
              step := step', trace := st.trace ++ [node_id] }
          match process_outgoing_edges eng oracle history fuel node_id
              out.next_nodes st1 with
          | Except.error e => Except.error e
          | Except.ok st2 => execute_sequential eng oracle history fuel rest st2

/-- `PipelineEngine::process_outgoing_edges` (fissio-engine lines
403-431): walk the node's outgoing edges in order. -/
def process_outgoing_edges (eng : PipelineEngine) (oracle : LlmOracle)
    (history : List Message) :
    Nat → String → List String → EngState → Except Err EngState
  | 0, _, _, _ => Except.error Err.fuelExhausted
  | fuel + 1, node_id, router_targets, st =>
    process_edges_loop eng oracle history fuel
      (eng.get_outgoing_edges node_id) router_targets st

/-- The edge loop of `process_outgoing_edges` (fissio-engine lines
412-429): skip an edge if any of its targets is already executed, or
if a router decision is in force and no target matches it; otherwise
process the edge. -/
def process_edges_loop (eng : PipelineEngine) (oracle : LlmOracle)
    (history : List Message) :
    Nat → List EdgeConfig → List String → EngState → Except Err EngState
  | 0, _, _, _ => Except.error Err.fuelExhausted
  | _fuel + 1, [], _, st => Except.ok st
  | fuel + 1, e :: rest, router_targets, st =>
    let edge_targets := e.to_.as_vec
    if edge_targets.any (fun t => st.executed.contains t) then
      process_edges_loop eng oracle history fuel rest router_targets st
    else if !router_targets.isEmpty &&
        !(edge_targets.any (fun t => router_targets.contains t)) then
      process_edges_loop eng oracle history fuel rest router_targets st
    else
      match process_edge eng oracle history fuel e st with
      | Except.error e' => Except.error e'
      | Except.ok st' => process_edges_loop eng oracle history fuel rest router_targets st'

end

/-- The start-edge test of `execute_stream` (fissio-engine lines
223-225): only an edge whose `from` is exactly `Single("input")`
starts traversal. -/
def is_start_edge (e : EdgeConfig) : Bool :=
  match e.from_ with
  | EdgeEndpoint.Single s => s == "input"
  | EdgeEndpoint.Multiple _ => false

/-- The output-edge test of `execute_stream` (fissio-engine line 234):
only an edge whose `to` is exactly `Single("output")` is the output
edge. -/
def is_output_edge (e : EdgeConfig) : Bool :=
  match e.to_ with
  | EdgeEndpoint.Single s => s == "output"
  | EdgeEndpoint.Multiple _ => false

/-- The start loop of `execute_stream` (fissio-engine lines 227-229):
process the start edges in declared order. -/
def process_start_edges (eng : PipelineEngine) (oracle : LlmOracle)
    (history : List Message) (fuel : Nat) :
    List EdgeConfig → EngState → Except Err EngState
  | [], st => Except.ok st
  | e :: rest, st =>
    match process_edge eng oracle history fuel e st with
    | Except.error e' => Except.error e'
    | Except.ok st' => process_start_edges eng oracle history fuel rest st'

/-- `PipelineEngine::execute_stream` (fissio-engine lines 201-253):
seed the context with the user message, process every start edge, then
report the context value of the last present `from` endpoint of the
first output edge (empty string when none).  The returned `EngState` is
ghost instrumentation; the source returns only the `EngineOutput`. -/
def execute_stream (eng : PipelineEngine) (oracle : LlmOracle) (fuel : Nat)
    (user_input : String) (history : List Message) :
    Except Err (EngineOutput × EngState) :=
  let st0 : EngState :=
    { context := alistInsert [] "input" user_input,
      executed := [], step := 0, trace := [] }
  let start_edges := eng.config.edges.filter is_start_edge
  match process_start_edges eng oracle history fuel start_edges st0 with
  | Except.error e => Except.error e
  | Except.ok st =>
    match eng.config.edges.find? is_output_edge with
    | some edge =>
      let from_nodes := edge.from_.as_vec
      Except.ok (EngineOutput.Complete
        ((from_nodes.reverse.findSome? (alistGet st.context)).getD ""), st)
    | none => Except.ok (EngineOutput.Complete "", st)

/-! ## `fissio-config`: JSON (de)serialization

`PipelineConfig::from_json` is `serde_json::from_str` with the derived
`Deserialize` impls; `PipelineConfig::to_json` is
`serde_json::to_string_pretty` with the derived `Serialize` impls.
Both are modeled at the JSON-tree level (`Json`), which the text layer
round-trips exactly.  The derived enum deserializers for `NodeType`
and `EdgeType` accept exactly the `snake_case` variant names and
reject anything else; `#[serde(default)]` applies only to missing
fields; the untagged `EdgeEndpoint` accepts a string or an array of
strings; unknown object fields are ignored. -/

/-- serde object-field lookup. -/
def jGet (fields : List (String × Json)) (k : String) : Option Json :=
  alistGet fields k

/-- Deserializing a `String`. -/
def parse_string : Json → Except String String
  | Json.str s => Except.ok s
  | _ => Except.error "invalid type: expected a string"

/-- Deserializing a `Vec<String>`. -/
def parse_string_list : Json → Except String (List String)
  | Json.arr xs => xs.mapM parse_string
  | _ => Except.error "invalid type: expected a sequence"

/-- The derived `Deserialize` for `NodeType`: exactly the nine
`snake_case` variant names; anything else is an unknown variant. -/
def node_type_from_json_string (s : String) : Except String NodeType :=
  match s with
  | "llm" => Except.ok NodeType.Llm
  | "gate" => Except.ok NodeType.Gate
  | "router" => Except.ok NodeType.Router
  | "coordinator" => Except.ok NodeType.Coordinator
  | "aggregator" => Except.ok NodeType.Aggregator
  | "orchestrator" => Except.ok NodeType.Orchestrator
  | "worker" => Except.ok NodeType.Worker
  | "synthesizer" => Except.ok NodeType.Synthesizer
  | "evaluator" => Except.ok NodeType.Evaluator
  | _ => Except.error ("unknown variant " ++ s)

/-- The derived `Deserialize` for `EdgeType`: exactly the four
`snake_case` variant names.  Note this is NOT `EdgeType::from_str`:
the derived impl used by `from_json` rejects unknown strings. -/
def edge_type_from_json_string (s : String) : Except String EdgeType :=
  match s with
  | "direct" => Except.ok EdgeType.Direct
  | "dynamic" => Except.ok EdgeType.Dynamic
  | "conditional" => Except.ok EdgeType.Conditional
  | "parallel" => Except.ok EdgeType.Parallel
  | _ => Except.error ("unknown variant " ++ s)

/-- Deserializing a `NodeType` value. -/
def parse_node_type : Json → Except String NodeType
  | Json.str s => node_type_from_json_string s
  | _ => Except.error "invalid type: expected a string"

/-- Deserializing an `EdgeType` value. -/
def parse_edge_type : Json → Except String EdgeType
  | Json.str s => edge_type_from_json_string s
  | _ => Except.error "invalid type: expected a string"

/-- The untagged `Deserialize` for `EdgeEndpoint`: a string is
`Single`, an array of strings is `Multiple`, anything else matches no
variant. -/
def parse_endpoint : Json → Except String EdgeEndpoint
  | Json.str s => Except.ok (EdgeEndpoint.Single s)
  | Json.arr xs =>
    match xs.mapM parse_string with
    | Except.ok v => Except.ok (EdgeEndpoint.Multiple v)
    | Except.error _ =>
      Except.error "data did not match any variant of untagged enum EdgeEndpoint"
  | _ => Except.error "data did not match any variant of untagged enum EdgeEndpoint"

/-- Deserializing a defaulted `Option<String>` field: missing or
`null` is `None`, a string is `Some`. -/
def parse_opt_string : Option Json → Except String (Option String)
  | none => Except.ok none
  | some Json.null => Except.ok none
  | some (Json.str s) => Except.ok (some s)
  | some _ => Except.error "invalid type: expected a string or null"

/-- A required field deserialized with `g`: missing fields error. -/
def parse_req_field {α : Type} (g : Json → Except String α)
    (fields : List (String × Json)) (k : String) : Except String α :=
  match jGet fields k with
  | some v => g v
  | none => Except.error ("missing field " ++ k)

/-- A defaulted field deserialized with `g`: missing fields take `d`. -/
def parse_dflt_field {α : Type} (g : Json → Except String α) (d : α)
    (fields : List (String × Json)) (k : String) : Except String α :=
  match jGet fields k with
  | some v => g v
  | none => Except.ok d

/-- Deserializing a homogeneous JSON array with `g`. -/
def parse_array {α : Type} (g : Json → Except String α) :
    Json → Except String (List α)
  | Json.arr xs => xs.mapM g
  | _ => Except.error "invalid type: expected a sequence"

/-- The derived `Deserialize` for `NodeConfig`: `id` and `type`
required, `model` / `config` / `prompt` / `tools` defaulted. -/
def parse_node : Json → Except String NodeConfig
  | Json.obj fields => do
    let id ← parse_req_field parse_string fields "id"
    let node_type ← parse_req_field parse_node_type fields "type"
    let model ← parse_opt_string (jGet fields "model")
    let prompt ← parse_opt_string (jGet fields "prompt")
    let tools ← parse_dflt_field parse_string_list [] fields "tools"
    Except.ok { id := id, node_type := node_type, model := model,
                config := (jGet fields "config").getD Json.null,
                prompt := prompt, tools := tools }
  | _ => Except.error "invalid type: expected a map"

/-- The derived `Deserialize` for `EdgeConfig`: `from` and `to`
required, `edge_type` defaulted to `Direct` when missing. -/
def parse_edge : Json → Except String EdgeConfig
  | Json.obj fields => do
    let f ← parse_req_field parse_endpoint fields "from"
    let t ← parse_req_field parse_endpoint fields "to"
    let et ← parse_dflt_field parse_edge_type EdgeType.Direct fields "edge_type"
    Except.ok { from_ := f, to_ := t, edge_type := et }
  | _ => Except.error "invalid type: expected a map"

/-- `PipelineConfig::from_json` (fissio-config lines 396-399), at the
JSON-tree level: the derived `Deserialize` for `PipelineConfig`. -/
def PipelineConfig.from_json : Json → Except String PipelineConfig
  | Json.obj fields => do
    let id ← parse_req_field parse_string fields "id"
    let name ← parse_req_field parse_string fields "name"
    let description ← parse_dflt_field parse_string "" fields "description"
    let nodes ← parse_req_field (parse_array parse_node) fields "nodes"
    let edges ← parse_req_field (parse_array parse_edge) fields "edges"
    Except.ok { id := id, name := name, description := description,
                nodes := nodes, edges := edges }
  | _ => Except.error "invalid type: expected a map"

/-- The derived `Serialize` for `NodeType` (`snake_case`, same strings
as its `Display` impl). -/
def node_type_to_string : NodeType → String
  | NodeType.Llm => "llm"
  | NodeType.Gate => "gate"
  | NodeType.Router => "router"
  | NodeType.Coordinator => "coordinator"
  | NodeType.Aggregator => "aggregator"
  | NodeType.Orchestrator => "orchestrator"
  | NodeType.Worker => "worker"
  | NodeType.Synthesizer => "synthesizer"
  | NodeType.Evaluator => "evaluator"

/-- The derived `Serialize` for `EdgeType`. -/
def edge_type_to_string : EdgeType → String
  | EdgeType.Direct => "direct"
  | EdgeType.Dynamic => "dynamic"
  | EdgeType.Conditional => "conditional"
  | EdgeType.Parallel => "parallel"

/-- The untagged `Serialize` for `EdgeEndpoint`. -/
def endpoint_to_json : EdgeEndpoint → Json
  | EdgeEndpoint.Single s => Json.str s
  | EdgeEndpoint.Multiple v => Json.arr (v.map Json.str)

/-- Serializing an `Option<String>` field (serde writes `None` as
`null`; no skip attribute is present). -/
def opt_string_to_json : Option String → Json
  | none => Json.null
  | some s => Json.str s

/-- The derived `Serialize` for `NodeConfig`. -/
def node_to_json (n : NodeConfig) : Json :=
  Json.obj [("id", Json.str n.id),
            ("type", Json.str (node_type_to_string n.node_type)),
            ("model", opt_string_to_json n.model),
            ("config", n.config),
            ("prompt", opt_string_to_json n.prompt),
            ("tools", Json.arr (n.tools.map Json.str))]

/-- The derived `Serialize` for `EdgeConfig`. -/
def edge_to_json (e : EdgeConfig) : Json :=
  Json.obj [("from", endpoint_to_json e.from_),
            ("to", endpoint_to_json e.to_),
            ("edge_type", Json.str (edge_type_to_string e.edge_type))]

/-- `PipelineConfig::to_json` (fissio-config lines 402-404), at the
JSON-tree level: the derived `Serialize` for `PipelineConfig`. -/
def PipelineConfig.to_json (p : PipelineConfig) : Json :=
  Json.obj [("id", Json.str p.id),
            ("name", Json.str p.name),
            ("description", Json.str p.description),
            ("nodes", Json.arr (p.nodes.map node_to_json)),
            ("edges", Json.arr (p.edges.map edge_to_json))]

/-! ## Specification-side definitions

Definitions written from the specification's words, used to state the
theorems; each is compared against the source-derived functions
above. -/

/-- The first edge whose `to` list contains the node AND whose `from`
IDs contribute at least one present context value.  (The claim's
"first edge whose `to` list contains the node" drops the second
conjunct; the code requires it.) -/
def first_feeding_edge (edges : List EdgeConfig) (node_id : String)
    (ctx : List (String × String)) : Option EdgeConfig :=
  edges.find? (fun e =>
    decide (node_id ∈ e.to_.as_vec) &&
    !(e.from_.as_vec.filterMap (alistGet ctx)).isEmpty)

/-- The routing decision described by the specification: the first
outgoing target whose lowercased ID equals the trimmed-and-lowercased
reply, else the first outgoing target, else nothing. -/
def spec_router_choice (reply : String) (targets : List String) : List String :=
  match targets.find? (fun t => t.toLower == reply.trim.toLower) with
  | some t => [t]
  | none =>
    match targets.head? with
    | some t => [t]
    | none => []

/-- Two edges are endpoint-normalization-equivalent when their
endpoints read as the same ID lists and their types agree
(`single(x) ≈ multiple([x])`). -/
def EdgeEquiv (e1 e2 : EdgeConfig) : Prop :=
  e1.from_.as_vec = e2.from_.as_vec ∧ e1.to_.as_vec = e2.to_.as_vec ∧
  e1.edge_type = e2.edge_type

/-- An engine result is "not a live stream": either an error or an
`EngineOutput.Complete`. -/
def not_stream_result : Except Err (EngineOutput × EngState) → Bool
  | Except.ok (EngineOutput.Stream _, _) => false
  | _ => true

/-- Every `parallel` edge of the configuration lists pairwise-distinct
targets (the hypothesis under which at-most-once invocation holds). -/
def parallel_targets_nodup (cfg : PipelineConfig) : Prop :=
  ∀ e ∈ cfg.edges, e.edge_type = EdgeType.Parallel → e.to_.as_vec.Nodup

/-! ## Concrete instances used by witnesses and counterexamples -/

/-- A throwaway default model for concrete engines. -/
def trivial_model : ModelConfig :=
  { id := "m", name := "m", model := "m", api_base := none }

/-- An oracle whose every reply is the empty content (used only where
the run never consults it, or where its value is irrelevant). -/
def silent_oracle : LlmOracle :=
  { chat := fun _ _ _ => Except.ok "",
    chat_with_tools := fun _ _ _ _ _ _ => Except.ok (ChatResponse.Content "") }

/-- The concrete engine for the C5 counterexample: only edge
`input → output`. -/
def engC5 : PipelineEngine :=
  { config := { id := "p", name := "p", description := "", nodes := [],
                edges := [EdgeConfig.mk (EdgeEndpoint.Single "input")
                  (EdgeEndpoint.Single "output") EdgeType.Direct] },
    resolver := { models := [], default_model := trivial_model },
    node_overrides := [], tool_registry := [] }

/-- The gate node used by the C6 counterexample (gates pass their
input through without any LLM call, making the run deterministic). -/
def gateNodeA : NodeConfig :=
  { id := "A", node_type := NodeType.Gate, model := none,
    config := Json.null, prompt := none, tools := [] }

/-- C6 counterexample, `Single` side: `input → A → output`. -/
def engC6a : PipelineEngine :=
  { config := { id := "p", name := "p", description := "",
                nodes := [gateNodeA],
                edges := [EdgeConfig.mk (EdgeEndpoint.Single "input")
                    (EdgeEndpoint.Single "A") EdgeType.Direct,
                  EdgeConfig.mk (EdgeEndpoint.Single "A")
                    (EdgeEndpoint.Single "output") EdgeType.Direct] },
    resolver := { models := [], default_model := trivial_model },
    node_overrides := [], tool_registry := [] }

/-- C6 counterexample, `Multiple` side: identical except the start
edge's `from` is `Multiple(["input"])`. -/
def engC6b : PipelineEngine :=
  { config := { id := "p", name := "p", description := "",
                nodes := [gateNodeA],
                edges := [EdgeConfig.mk (EdgeEndpoint.Multiple ["input"])
                    (EdgeEndpoint.Single "A") EdgeType.Direct,
                  EdgeConfig.mk (EdgeEndpoint.Single "A")
                    (EdgeEndpoint.Single "output") EdgeType.Direct] },
    resolver := { models := [], default_model := trivial_model },
    node_overrides := [], tool_registry := [] }

/-- The nine `snake_case` node-type strings. -/
def known_node_type_strings : List String :=
  ["llm", "gate", "router", "coordinator", "aggregator", "orchestrator",
   "worker", "synthesizer", "evaluator"]

/-- The four `snake_case` edge-type strings. -/
def known_edge_type_strings : List String :=
  ["direct", "dynamic", "conditional", "parallel"]

/-- A concrete pipeline JSON whose single edge carries the unknown
`edge_type` string `"bogus"` and which is otherwise entirely valid. -/
def c7_bad_edge_json : Json :=
  Json.obj [("id", Json.str "p"), ("name", Json.str "p"),
    ("nodes", Json.arr []),
    ("edges", Json.arr [Json.obj [("from", Json.str "input"),
      ("to", Json.str "output"), ("edge_type", Json.str "bogus")]])]

/-- The oracle keeps answering with successfully-processable tool calls
at every call index `i` with `lo < i ≤ hi`. -/
def all_tool_calls
    (chatT : Nat → String → List Msg → List ToolSchema → Option (List ToolCall) →
      Except Err ChatResponse)
    (registry : ToolRegistry) (sys : String) (schemas : List ToolSchema)
    (lo hi : Nat) : Prop :=
  ∀ i, lo < i → i ≤ hi → ∀ m p, ∃ calls new_msgs,
    chatT i sys m schemas p = Except.ok (ChatResponse.ToolCalls calls) ∧
    process_calls registry calls = Except.ok new_msgs

/-- State evolution summary for one traversal step: the ghost trace is
extended by some list `t` of newly invoked node IDs, the executed set
grows by exactly the members of `t`, and — under the hypothesis `H` —
the new invocations are pairwise distinct and were not yet executed. -/
def trace_ext (H : Prop) (st st' : EngState) : Prop :=
  ∃ t, st'.trace = st.trace ++ t ∧
    (∀ x, x ∈ st'.executed ↔ (x ∈ st.executed ∨ x ∈ t)) ∧
    (H → t.Nodup ∧ ∀ x ∈ t, x ∉ st.executed)

/-- A sequential `input → A → output` engine used by the C2 witness. -/
def engC2seq : PipelineEngine :=
  { config := { id := "p", name := "p", description := "",
                nodes := [gateNodeA],
                edges := [EdgeConfig.mk (EdgeEndpoint.Single "input")
                    (EdgeEndpoint.Single "A") EdgeType.Direct,
                  EdgeConfig.mk (EdgeEndpoint.Single "A")
                    (EdgeEndpoint.Single "output") EdgeType.Direct] },
    resolver := { models := [], default_model := trivial_model },
    node_overrides := [], tool_registry := [] }

/-- The final state of the C2 witness run. -/
def stC2w : EngState :=
  { context := [("A", "hi"), ("input", "hi")], executed := ["A"],
    step := 1, trace := ["A"] }

/-- The engine whose single parallel edge lists target `a` twice. -/
def engC2dup : PipelineEngine :=
  { config := { id := "p", name := "p", description := "",
                nodes := [{ id := "a", node_type := NodeType.Gate, model := none,
                            config := Json.null, prompt := none, tools := [] }],
                edges := [EdgeConfig.mk (EdgeEndpoint.Single "input")
                  (EdgeEndpoint.Multiple ["a", "a"]) EdgeType.Parallel] },
    resolver := { models := [], default_model := trivial_model },
    node_overrides := [], tool_registry := [] }

/-! # Verification

Theorems, one block per claim, preceded by the shared helper lemmas. -/

theorem alistGet_insert_self {α : Type} (l : List (String × α)) (k : String) (v : α) :
    alistGet (alistInsert l k v) k = some v := by
  simp [alistGet, alistInsert, List.find?]

theorem mem_setInsert (l : List String) (x y : String) :
    y ∈ setInsert l x ↔ y ∈ l ∨ y = x := by
  by_cases h : x ∈ l
  · simp only [setInsert, if_pos h]
    constructor
    · exact fun hy => Or.inl hy
    · rintro (hy | rfl) <;> [exact hy; exact h]
  · simp [setInsert, if_neg h]

theorem isMsQuotient_div (a : Nat) : isMsQuotient (a / 1000000) a := by
  constructor
  · exact Nat.div_mul_le_self a 1000000
  · have h := Nat.div_add_mod a 1000000
    have h2 : a % 1000000 < 1000000 := Nat.mod_lt a (by decide)
    omega

/-! ## C10: metrics derivations -/

/-- C10: every millisecond field is the integer (truncating) quotient
of its nanosecond field by 1,000,000, and `tokens_per_sec` is 0.0 when
`eval_duration` is 0 and `eval_count / (eval_duration / 1e9)` (in f64)
otherwise. -/
theorem c10_metrics_derivations (m : OllamaMetrics) :
    (m.total_duration_ms = m.total_duration / 1000000 ∧
      isMsQuotient m.total_duration_ms m.total_duration) ∧
    (m.load_duration_ms = m.load_duration / 1000000 ∧
      isMsQuotient m.load_duration_ms m.load_duration) ∧
    (m.prompt_eval_ms = m.prompt_eval_duration / 1000000 ∧
      isMsQuotient m.prompt_eval_ms m.prompt_eval_duration) ∧
    (m.eval_ms = m.eval_duration / 1000000 ∧
      isMsQuotient m.eval_ms m.eval_duration) ∧
    (m.eval_duration = 0 → m.tokens_per_sec = 0.0) ∧
    (m.eval_duration ≠ 0 → m.tokens_per_sec =
      Float.ofNat m.eval_count / (Float.ofNat m.eval_duration / 1000000000.0)) := by
  refine ⟨⟨rfl, isMsQuotient_div _⟩, ⟨rfl, isMsQuotient_div _⟩,
    ⟨rfl, isMsQuotient_div _⟩, ⟨rfl, isMsQuotient_div _⟩, ?_, ?_⟩
  · intro h
    simp [OllamaMetrics.tokens_per_sec, h]
  · intro h
    simp [OllamaMetrics.tokens_per_sec, h]

/-! ## C1: input materialization -/

theorem get_input_eq_first_feeding (edges : List EdgeConfig) (node_id : String)
    (ctx : List (String × String)) :
    get_input_for_node edges node_id ctx =
      match first_feeding_edge edges node_id ctx with
      | some e => String.intercalate inputSeparator
          (e.from_.as_vec.filterMap (alistGet ctx))
      | none => (alistGet ctx "input").getD "" := by
  induction edges with
  | nil => rfl
  | cons e rest ih =>
    by_cases hmem : node_id ∈ e.to_.as_vec
    · by_cases hemp : (e.from_.as_vec.filterMap (alistGet ctx)).isEmpty
      · simp [get_input_for_node, first_feeding_edge, List.find?_cons, hmem, hemp, ih,
          first_feeding_edge]
      · simp [get_input_for_node, first_feeding_edge, List.find?_cons, hmem, hemp]
    · simp [get_input_for_node, first_feeding_edge, List.find?_cons, hmem, ih,
        first_feeding_edge]

/-- C1 (amended): the input string for a node equals the joined
present `from`-values of the first edge whose `to` list contains the
node AND which contributes at least one present value; a matching edge
contributing no present value is skipped in favor of later matching
edges; only when no matching edge contributes anything does the result
fall back to `context["input"]`, then to the empty string. -/
theorem c1_input_materialization (edges : List EdgeConfig) (node_id : String)
    (ctx : List (String × String)) :
    get_input_for_node edges node_id ctx =
      match first_feeding_edge edges node_id ctx with
      | some e => String.intercalate inputSeparator
          (e.from_.as_vec.filterMap (alistGet ctx))
      | none => (alistGet ctx "input").getD "" :=
  get_input_eq_first_feeding edges node_id ctx

/-- C1 counterexample: with edges `a → n` then `b → n` and context
`{input ↦ "I", b ↦ "B"}`, the first edge whose `to` contains `n`
contributes no present value, yet the result is `"B"` from the second
matching edge, not `context["input"] = "I"` as the claim requires. -/
theorem c1_counterexample :
    ("n" ∈ (EdgeConfig.mk (EdgeEndpoint.Single "a") (EdgeEndpoint.Single "n")
        EdgeType.Direct).to_.as_vec) ∧
    ((EdgeConfig.mk (EdgeEndpoint.Single "a") (EdgeEndpoint.Single "n")
        EdgeType.Direct).from_.as_vec.filterMap
        (alistGet [("input", "I"), ("b", "B")])) = [] ∧
    get_input_for_node
      [EdgeConfig.mk (EdgeEndpoint.Single "a") (EdgeEndpoint.Single "n")
        EdgeType.Direct,
       EdgeConfig.mk (EdgeEndpoint.Single "b") (EdgeEndpoint.Single "n")
        EdgeType.Direct]
      "n" [("input", "I"), ("b", "B")] = "B" ∧
    ("B" : String) ≠ (alistGet [("input", "I"), ("b", "B")] "input").getD "" := by
  refine ⟨by decide, rfl, rfl, by decide⟩

/-! ## C3: router decision -/

theorem output_not_mem_outgoing_targets (eng : PipelineEngine) (node_id : String) :
    "output" ∉ eng.get_outgoing_targets node_id := by
  intro h
  simp only [PipelineEngine.get_outgoing_targets, List.mem_filter] at h
  exact absurd h.2 (by simp)

/-- C3: executing a router with outgoing targets
`get_outgoing_targets` (which exclude `"output"`) and an LLM replying
`reply` returns the raw reply as content, and as next-nodes the
singleton of the first target whose lowercased ID equals the trimmed,
lowercased reply — falling back to the first target, or to the empty
list when there are no targets. -/
theorem c3_router_decision (eng : PipelineEngine) (node_id : String)
    (reply : String) (prompt : Option String) (input : String) :
    execute_router (fun _ _ => Except.ok reply) prompt input
        (eng.get_outgoing_targets node_id) =
      Except.ok (reply, spec_router_choice reply (eng.get_outgoing_targets node_id)) ∧
    "output" ∉ eng.get_outgoing_targets node_id := by
  refine ⟨?_, output_not_mem_outgoing_targets eng node_id⟩
  simp only [execute_router, spec_router_choice]

/-! ## C9: the engine never produces a stream -/

/-- C9: `execute_stream` never returns the `EngineOutput::Stream`
variant: every `Ok` result is `Complete`. -/
theorem c9_no_stream (eng : PipelineEngine) (oracle : LlmOracle) (fuel : Nat)
    (user_input : String) (history : List Message) :
    not_stream_result (execute_stream eng oracle fuel user_input history) = true := by
  unfold execute_stream
  dsimp only
  split
  · rfl
  · split <;> rfl

/-! ## C5: the `input → output` pipeline -/

/-- C5 (amended): a pipeline whose only edge is `input → output`
returns the user message itself — the output scan reads the `"input"`
context key, which holds the user message — and therefore returns the
empty string only when the user message is empty.  Stated for every
node list, model setup, history, oracle and positive fuel. -/
theorem c5_trivial_pipeline (pid pname pdesc : String)
    (nodes : List NodeConfig) (resolver : ModelResolver)
    (ovr : List (String × String)) (reg : ToolRegistry) (n : Nat)
    (oracle : LlmOracle) (user : String) (history : List Message) :
    execute_stream
      { config := { id := pid, name := pname, description := pdesc,
                    nodes := nodes,
                    edges := [EdgeConfig.mk (EdgeEndpoint.Single "input")
                      (EdgeEndpoint.Single "output") EdgeType.Direct] },
        resolver := resolver, node_overrides := ovr, tool_registry := reg }
      oracle (n + 1) user history =
      Except.ok (EngineOutput.Complete user,
        { context := [("input", user)], executed := [], step := 0, trace := [] }) := by
  rfl

/-- C5 counterexample: on user message `"hi"` the `input → output`
pipeline returns `"hi"`, not the empty string the claim requires. -/
theorem c5_counterexample :
    (execute_stream engC5 silent_oracle 1 "hi" []).map (fun p => p.1) =
      Except.ok (EngineOutput.Complete "hi") ∧
    EngineOutput.Complete "hi" ≠ EngineOutput.Complete "" := by
  exact ⟨rfl, by decide⟩

/-! ## C6: endpoint normalization -/

/-- C6 (amended): `Single(x)` and `Multiple([x])` read as the same ID
list, so every `as_vec`-based operation — input materialization in
particular — is invariant under replacing one by the other throughout
the edge list; but `execute_stream`'s start-edge selection accepts
only `from = Single("input")` and its output-edge selection only
`to = Single("output")`, so the `Multiple` forms neither start
traversal nor are recognized as the output edge. -/
theorem c6_endpoint_normalization :
    (∀ x : String,
      (EdgeEndpoint.Single x).as_vec = (EdgeEndpoint.Multiple [x]).as_vec) ∧
    (∀ edges1 edges2 : List EdgeConfig, ∀ node_id : String,
      ∀ ctx : List (String × String), List.Forall₂ EdgeEquiv edges1 edges2 →
      get_input_for_node edges1 node_id ctx = get_input_for_node edges2 node_id ctx) ∧
    (∀ e : EdgeConfig, ∀ x : String,
      is_start_edge { e with from_ := EdgeEndpoint.Multiple [x] } = false ∧
      is_output_edge { e with to_ := EdgeEndpoint.Multiple [x] } = false) ∧
    is_start_edge (EdgeConfig.mk (EdgeEndpoint.Single "input")
      (EdgeEndpoint.Single "output") EdgeType.Direct) = true ∧
    is_output_edge (EdgeConfig.mk (EdgeEndpoint.Single "input")
      (EdgeEndpoint.Single "output") EdgeType.Direct) = true := by
  refine ⟨fun x => rfl, ?_, fun e x => ⟨rfl, rfl⟩, rfl, rfl⟩
  intro edges1 edges2 node_id ctx h
  induction h with
  | nil => rfl
  | cons he _ht ih =>
    obtain ⟨hf, htv, _⟩ := he
    simp only [get_input_for_node, htv, hf, ih]

/-- Witness for C6: the invariance conjunct applied to a concrete
one-edge list against its `Multiple`-normalized form. -/
theorem c6_witness :
    get_input_for_node
      [EdgeConfig.mk (EdgeEndpoint.Single "a") (EdgeEndpoint.Single "b")
        EdgeType.Direct] "b" [("a", "v")] =
    get_input_for_node
      [EdgeConfig.mk (EdgeEndpoint.Multiple ["a"]) (EdgeEndpoint.Multiple ["b"])
        EdgeType.Direct] "b" [("a", "v")] :=
  c6_endpoint_normalization.2.1 _ _ "b" _
    (List.Forall₂.cons ⟨rfl, rfl, rfl⟩ List.Forall₂.nil)

/-- C6 counterexample: replacing the start edge's `Single("input")` by
the equivalent `Multiple(["input"])` changes the observable result
from `"hi"` to `""` — the `Multiple` form does not start traversal. -/
theorem c6_counterexample :
    (execute_stream engC6a silent_oracle 10 "hi" []).map (fun p => p.1) =
      Except.ok (EngineOutput.Complete "hi") ∧
    (execute_stream engC6b silent_oracle 10 "hi" []).map (fun p => p.1) =
      Except.ok (EngineOutput.Complete "") ∧
    EdgeEquiv
      (EdgeConfig.mk (EdgeEndpoint.Single "input") (EdgeEndpoint.Single "A")
        EdgeType.Direct)
      (EdgeConfig.mk (EdgeEndpoint.Multiple ["input"]) (EdgeEndpoint.Single "A")
        EdgeType.Direct) ∧
    EngineOutput.Complete "hi" ≠ EngineOutput.Complete "" := by
  exact ⟨rfl, rfl, ⟨rfl, rfl, rfl⟩, by decide⟩

/-! ## C7 / C8: JSON parsing and round-trip -/

theorem except_bind_ok {ε α β : Type} {x : Except ε α} {f : α → Except ε β}
    {b : β} (h : (x >>= f) = Except.ok b) : ∃ a, x = Except.ok a ∧ f a = Except.ok b := by
  cases x with
  | error e => simp [Bind.bind, Except.bind] at h
  | ok a => exact ⟨a, rfl, by simpa [Bind.bind, Except.bind] using h⟩

theorem unknown_node_type_errors (s : String)
    (h : s ∉ known_node_type_strings) :
    node_type_from_json_string s = Except.error ("unknown variant " ++ s) := by
  unfold node_type_from_json_string
  split
  all_goals simp_all [known_node_type_strings]

theorem unknown_edge_type_errors (s : String)
    (h : s ∉ known_edge_type_strings) :
    edge_type_from_json_string s = Except.error ("unknown variant " ++ s) := by
  unfold edge_type_from_json_string
  split
  all_goals simp_all [known_edge_type_strings]

theorem from_str_unknown_direct (s : String)
    (h : s ∉ known_edge_type_strings) : EdgeType.from_str s = EdgeType.Direct := by
  unfold EdgeType.from_str
  split
  all_goals simp_all [known_edge_type_strings]

theorem mapM_ok_mem {α β : Type} {g : α → Except String β} :
    ∀ {xs : List α} {l : List β}, xs.mapM g = Except.ok l →
      ∀ x ∈ xs, ∃ b, g x = Except.ok b := by
  intro xs
  induction xs with
  | nil => intro l _ x hx; cases hx
  | cons a ta ih =>
    intro l h x hx
    rw [List.mapM_cons] at h
    obtain ⟨b, hb, h2⟩ := except_bind_ok h
    obtain ⟨bs, hbs, _⟩ := except_bind_ok h2
    cases hx with
    | head => exact ⟨b, hb⟩
    | tail _ hmem => exact ih hbs x hmem

theorem parse_req_field_ok {α : Type} {g : Json → Except String α}
    {fields : List (String × Json)} {k : String} {a : α}
    (h : parse_req_field g fields k = Except.ok a) :
    ∃ v, jGet fields k = some v ∧ g v = Except.ok a := by
  unfold parse_req_field at h
  cases hv : jGet fields k with
  | none => rw [hv] at h; cases h
  | some v => rw [hv] at h; exact ⟨v, rfl, h⟩

theorem parse_dflt_field_ok {α : Type} {g : Json → Except String α} {d : α}
    {fields : List (String × Json)} {k : String} {a : α}
    (h : parse_dflt_field g d fields k = Except.ok a) :
    (∀ v, jGet fields k = some v → g v = Except.ok a) ∧
    (jGet fields k = none → a = d) := by
  unfold parse_dflt_field at h
  cases hv : jGet fields k with
  | none =>
    rw [hv] at h
    refine ⟨fun v hv' => ?_, fun _ => ?_⟩
    · cases hv'
    · cases h
      rfl
  | some v =>
    rw [hv] at h
    refine ⟨fun v' hv' => ?_, fun hn => ?_⟩
    · cases hv'
      exact h
    · cases hn

theorem parse_node_ok_type {fields : List (String × Json)} {nc : NodeConfig}
    {s : String} (h : parse_node (Json.obj fields) = Except.ok nc)
    (hty : jGet fields "type" = some (Json.str s)) :
    node_type_from_json_string s = Except.ok nc.node_type := by
  simp only [parse_node] at h
  obtain ⟨i, _, h⟩ := except_bind_ok h
  obtain ⟨t, ht, h⟩ := except_bind_ok h
  obtain ⟨mo, _, h⟩ := except_bind_ok h
  obtain ⟨pr, _, h⟩ := except_bind_ok h
  obtain ⟨tl, _, h⟩ := except_bind_ok h
  obtain ⟨v, hv, hg⟩ := parse_req_field_ok ht
  rw [hty] at hv
  cases hv
  injection h with h
  subst h
  exact hg

theorem parse_edge_ok_edge_type {fields : List (String × Json)} {ec : EdgeConfig}
    (h : parse_edge (Json.obj fields) = Except.ok ec) :
    (∀ v, jGet fields "edge_type" = some v →
      parse_edge_type v = Except.ok ec.edge_type) ∧
    (jGet fields "edge_type" = none → ec.edge_type = EdgeType.Direct) := by
  simp only [parse_edge] at h
  obtain ⟨f, _, h⟩ := except_bind_ok h
  obtain ⟨t, _, h⟩ := except_bind_ok h
  obtain ⟨et, het, h⟩ := except_bind_ok h
  injection h with h
  subst h
  exact parse_dflt_field_ok het

theorem from_json_ok_parses {fields : List (String × Json)} {p : PipelineConfig}
    (h : PipelineConfig.from_json (Json.obj fields) = Except.ok p) :
    (∀ xs, jGet fields "nodes" = some (Json.arr xs) →
      ∀ x ∈ xs, ∃ nc, parse_node x = Except.ok nc) ∧
    (∀ xs, jGet fields "edges" = some (Json.arr xs) →
      ∀ x ∈ xs, ∃ ec, parse_edge x = Except.ok ec) := by
  simp only [PipelineConfig.from_json] at h
  obtain ⟨i, _, h⟩ := except_bind_ok h
  obtain ⟨nm, _, h⟩ := except_bind_ok h
  obtain ⟨ds, _, h⟩ := except_bind_ok h
  obtain ⟨ns, hns, h⟩ := except_bind_ok h
  obtain ⟨es, hes, h⟩ := except_bind_ok h
  obtain ⟨vn, hvn, hgn⟩ := parse_req_field_ok hns
  obtain ⟨ve, hve, hge⟩ := parse_req_field_ok hes
  constructor
  · intro xs hxs
    rw [hxs] at hvn
    cases hvn
    exact mapM_ok_mem (by simpa [parse_array] using hgn)
  · intro xs hxs
    rw [hxs] at hve
    cases hve
    exact mapM_ok_mem (by simpa [parse_array] using hge)

/-- C7 (amended): parsing rejects the whole config when any node's
`type` is a string outside the nine known node types — and, contrary
to the claim, it also rejects when an edge's `edge_type` is a string
outside the four known edge types: the derived deserializer used by
`from_json` is closed, while the normalizing `EdgeType::from_str`
fallback to `direct` exists but is not on the `from_json` path.  A
missing `edge_type` does default to `direct`. -/
theorem c7_parse_rejections :
    (∀ s : String, s ∉ known_node_type_strings →
      node_type_from_json_string s = Except.error ("unknown variant " ++ s)) ∧
    (∀ s : String, s ∉ known_edge_type_strings →
      edge_type_from_json_string s = Except.error ("unknown variant " ++ s)) ∧
    (∀ fields : List (String × Json), ∀ p : PipelineConfig,
      PipelineConfig.from_json (Json.obj fields) = Except.ok p →
      (∀ xs, jGet fields "nodes" = some (Json.arr xs) →
        ∀ x ∈ xs, ∃ nc, parse_node x = Except.ok nc) ∧
      (∀ xs, jGet fields "edges" = some (Json.arr xs) →
        ∀ x ∈ xs, ∃ ec, parse_edge x = Except.ok ec)) ∧
    (∀ fields : List (String × Json), ∀ nc : NodeConfig, ∀ s : String,
      parse_node (Json.obj fields) = Except.ok nc →
      jGet fields "type" = some (Json.str s) →
      node_type_from_json_string s = Except.ok nc.node_type) ∧
    (∀ fields : List (String × Json), ∀ ec : EdgeConfig,
      parse_edge (Json.obj fields) = Except.ok ec →
      (∀ v, jGet fields "edge_type" = some v →
        parse_edge_type v = Except.ok ec.edge_type) ∧
      (jGet fields "edge_type" = none → ec.edge_type = EdgeType.Direct)) ∧
    (∀ s : String, s ∉ known_edge_type_strings →
      EdgeType.from_str s = EdgeType.Direct) :=
  ⟨unknown_node_type_errors, unknown_edge_type_errors,
   fun _ _ h => from_json_ok_parses h,
   fun _ _ _ h hty => parse_node_ok_type h hty,
   fun _ _ h => parse_edge_ok_edge_type h,
   from_str_unknown_direct⟩

/-- Witness for C7: the rejection conjuncts applied at the concrete
unknown strings `"weird"` (node type) and `"bogus"` (edge type). -/
theorem c7_witness :
    node_type_from_json_string "weird" =
      Except.error ("unknown variant " ++ "weird") ∧
    edge_type_from_json_string "bogus" =
      Except.error ("unknown variant " ++ "bogus") ∧
    EdgeType.from_str "bogus" = EdgeType.Direct :=
  ⟨c7_parse_rejections.1 "weird" (by decide),
   c7_parse_rejections.2.1 "bogus" (by decide),
   c7_parse_rejections.2.2.2.2.2 "bogus" (by decide)⟩

/-- C7 counterexample: a config whose edge has `edge_type: "bogus"`
is rejected by `from_json` with a parse error — it does NOT succeed
with that edge normalized to `direct` as the claim states. -/
theorem c7_counterexample :
    PipelineConfig.from_json c7_bad_edge_json =
      Except.error ("unknown variant " ++ "bogus") ∧
    EdgeType.from_str "bogus" = EdgeType.Direct := by
  exact ⟨rfl, rfl⟩

theorem mapM_parse_map {α : Type} {f : α → Json} {g : Json → Except String α}
    (hr : ∀ a, g (f a) = Except.ok a) :
    ∀ l : List α, (l.map f).mapM g = Except.ok l := by
  intro l
  induction l with
  | nil => rfl
  | cons a ta ih =>
    rw [List.map_cons, List.mapM_cons, hr, ih]
    rfl

theorem parse_string_list_round (l : List String) :
    parse_string_list (Json.arr (l.map Json.str)) = Except.ok l := by
  show (l.map Json.str).mapM parse_string = Except.ok l
  exact mapM_parse_map (f := Json.str) (g := parse_string) (fun _ => rfl) l

theorem node_type_round (t : NodeType) :
    node_type_from_json_string (node_type_to_string t) = Except.ok t := by
  cases t <;> rfl

theorem edge_type_round (t : EdgeType) :
    edge_type_from_json_string (edge_type_to_string t) = Except.ok t := by
  cases t <;> rfl

theorem opt_string_round (o : Option String) :
    parse_opt_string (some (opt_string_to_json o)) = Except.ok o := by
  cases o <;> rfl

theorem endpoint_round (ep : EdgeEndpoint) :
    parse_endpoint (endpoint_to_json ep) = Except.ok ep := by
  cases ep with
  | Single s => rfl
  | Multiple v =>
    have h := mapM_parse_map (f := Json.str) (g := parse_string) (fun _ => rfl) v
    simp only [endpoint_to_json, parse_endpoint]
    rw [h]

theorem node_round (n : NodeConfig) : parse_node (node_to_json n) = Except.ok n := by
  obtain ⟨id, nt, model, config, prompt, tools⟩ := n
  simp [node_to_json, parse_node, parse_req_field, parse_dflt_field, jGet,
    alistGet, parse_string, parse_node_type, node_type_round, opt_string_round,
    parse_string_list_round, Bind.bind, Except.bind]

theorem edge_round (e : EdgeConfig) : parse_edge (edge_to_json e) = Except.ok e := by
  obtain ⟨f, t, et⟩ := e
  simp [edge_to_json, parse_edge, parse_req_field, parse_dflt_field, jGet,
    alistGet, parse_edge_type, endpoint_round, edge_type_round,
    Bind.bind, Except.bind]

/-- C8: `from_json (to_json p)` succeeds and returns `p` itself —
every field, node and edge (endpoints, edge types, in order) is
preserved by the serialization round trip. -/
theorem c8_round_trip (p : PipelineConfig) :
    PipelineConfig.from_json (PipelineConfig.to_json p) = Except.ok p := by
  obtain ⟨pid, pname, pdesc, nodes, edges⟩ := p
  have hn := mapM_parse_map node_round nodes
  have he := mapM_parse_map edge_round edges
  have hn' : List.mapM.loop parse_node (List.map node_to_json nodes) [] =
      Except.ok nodes := hn
  have he' : List.mapM.loop parse_edge (List.map edge_to_json edges) [] =
      Except.ok edges := he
  simp [PipelineConfig.to_json, PipelineConfig.from_json, parse_req_field,
    parse_dflt_field, parse_array, jGet, alistGet, parse_string,
    Bind.bind, Except.bind]
  rw [hn', he']

/-! ## C4: the agentic tool-loop cap -/

theorem tool_loop_cap_aux
    {chatT : Nat → String → List Msg → List ToolSchema → Option (List ToolCall) →
      Except Err ChatResponse}
    {registry : ToolRegistry} {sys : String} {schemas : List ToolSchema} :
    ∀ d j msgs pend, j + d = 10 →
      all_tool_calls chatT registry sys schemas j 10 →
      tool_loop chatT registry sys schemas msgs pend j =
        (Except.error (Err.LlmError "Max tool iterations (10) exceeded"), d) := by
  intro d
  induction d with
  | zero =>
    intro j msgs pend hj _
    have hj10 : j = 10 := by omega
    subst hj10
    unfold tool_loop
    simp only [MAX_TOOL_ITERATIONS]
    rw [dif_pos (by omega)]
    rfl
  | succ d ih =>
    intro j msgs pend hj hcalls
    unfold tool_loop
    simp only [MAX_TOOL_ITERATIONS]
    rw [dif_neg (by omega)]
    obtain ⟨calls, new_msgs, hchat, hproc⟩ :=
      hcalls (j + 1) (by omega) (by omega) msgs pend
    rw [hchat]
    dsimp only
    rw [hproc]
    dsimp only
    rw [ih (j + 1) (msgs ++ new_msgs) (some calls) (by omega)
      (fun i h1 h2 m p => hcalls i (by omega) h2 m p)]

theorem tool_loop_content_aux
    {chatT : Nat → String → List Msg → List ToolSchema → Option (List ToolCall) →
      Except Err ChatResponse}
    {registry : ToolRegistry} {sys : String} {schemas : List ToolSchema}
    {k : Nat} {c : String} (hk10 : k ≤ 10)
    (hcontent : ∀ m p, chatT k sys m schemas p =
      Except.ok (ChatResponse.Content c)) :
    ∀ d j msgs pend, j + 1 + d = k →
      all_tool_calls chatT registry sys schemas j (k - 1) →
      tool_loop chatT registry sys schemas msgs pend j = (Except.ok c, d + 1) := by
  intro d
  induction d with
  | zero =>
    intro j msgs pend hj _
    have hjk : j + 1 = k := by omega
    unfold tool_loop
    simp only [MAX_TOOL_ITERATIONS]
    rw [dif_neg (by omega)]
    rw [hjk, hcontent msgs pend]
  | succ d ih =>
    intro j msgs pend hj hcalls
    unfold tool_loop
    simp only [MAX_TOOL_ITERATIONS]
    rw [dif_neg (by omega)]
    obtain ⟨calls, new_msgs, hchat, hproc⟩ :=
      hcalls (j + 1) (by omega) (by omega) msgs pend
    rw [hchat]
    dsimp only
    rw [hproc]
    dsimp only
    rw [ih (j + 1) (msgs ++ new_msgs) (some calls) (by omega)
      (fun i h1 h2 m p => hcalls i (by omega) h2 m p)]

/-- C4: with tools configured and resolvable, (1) if the tool-aware
chat call returns successfully-processed tool calls on each of the
first 10 iterations, the loop makes exactly 10 tool-aware chat calls —
no 11th — and fails with an LLM error whose message contains `"10"`;
and (2) if a `Content` reply arrives at some iteration `k ≤ 10` (tool
calls before it), its content is returned unchanged after exactly `k`
tool-aware chat calls. -/
theorem c4_tool_loop_cap
    (chat : String → String → Except Err String)
    (chatT : Nat → String → List Msg → List ToolSchema → Option (List ToolCall) →
      Except Err ChatResponse)
    (registry : ToolRegistry) (prompt : Option String) (input : String)
    (tools : List String) (hts : tools ≠ [])
    (hsch : tool_schemas_of registry tools ≠ []) :
    (all_tool_calls chatT registry (prompt.getD "")
        (tool_schemas_of registry tools) 0 10 →
      execute_node_with_tools chat chatT registry prompt input tools =
        (Except.error (Err.LlmError "Max tool iterations (10) exceeded"), 10) ∧
      ∃ pre post, "Max tool iterations (10) exceeded" = pre ++ "10" ++ post) ∧
    (∀ k c, 1 ≤ k → k ≤ 10 →
      (∀ m p, chatT k (prompt.getD "") m (tool_schemas_of registry tools) p =
        Except.ok (ChatResponse.Content c)) →
      all_tool_calls chatT registry (prompt.getD "")
        (tool_schemas_of registry tools) 0 (k - 1) →
      execute_node_with_tools chat chatT registry prompt input tools =
        (Except.ok c, k)) := by
  have hloop : execute_node_with_tools chat chatT registry prompt input tools =
      tool_loop chatT registry (prompt.getD "") (tool_schemas_of registry tools)
        [user_message input] none 0 := by
    unfold execute_node_with_tools
    rw [if_neg (by simpa using hts)]
    rw [if_neg (by simpa using hsch)]
  constructor
  · intro hcalls
    refine ⟨?_, "Max tool iterations (", ") exceeded", rfl⟩
    rw [hloop]
    exact tool_loop_cap_aux 10 0 [user_message input] none (by omega) hcalls
  · intro k c hk1 hk10 hcontent hcalls
    rw [hloop]
    have h := tool_loop_content_aux hk10 hcontent (k - 1) 0
      [user_message input] none (by omega) hcalls
    rw [h]
    congr 1
    omega

/-- Witness for C4: a concrete oracle that always answers with one
call to a registered trivial tool reaches the cap: the run fails with
the `"10"` message after exactly 10 tool-aware chat calls. -/
theorem c4_witness :
    execute_node_with_tools (fun _ _ => Except.ok "")
      (fun _ _ _ _ _ => Except.ok (ChatResponse.ToolCalls
        [{ id := "1", name := "t", arguments := Json.null }]))
      [("t", { name := "t", description := "d", parameters := Json.null,
               execute := fun _ => Except.ok "r" })]
      none "go" ["t"] =
      (Except.error (Err.LlmError "Max tool iterations (10) exceeded"), 10) :=
  ((c4_tool_loop_cap (fun _ _ => Except.ok "")
      (fun _ _ _ _ _ => Except.ok (ChatResponse.ToolCalls
        [{ id := "1", name := "t", arguments := Json.null }]))
      [("t", { name := "t", description := "d", parameters := Json.null,
               execute := fun _ => Except.ok "r" })]
      none "go" ["t"] (by decide) (fun h => List.noConfusion h)).1
    (fun i _ _ m p =>
      ⟨[{ id := "1", name := "t", arguments := Json.null }],
       [tool_result_message "1" "r"], rfl, rfl⟩)).1

/-! ## C2: at-most-once invocation -/

theorem trace_ext_refl (H : Prop) (st : EngState) : trace_ext H st st :=
  ⟨[], by simp, fun x => by simp, fun _ => ⟨List.nodup_nil, by simp⟩⟩

theorem trace_ext_trans {H : Prop} {st1 st2 st3 : EngState}
    (h1 : trace_ext H st1 st2) (h2 : trace_ext H st2 st3) :
    trace_ext H st1 st3 := by
  obtain ⟨t1, ht1, he1, hn1⟩ := h1
  obtain ⟨t2, ht2, he2, hn2⟩ := h2
  refine ⟨t1 ++ t2, by rw [ht2, ht1, List.append_assoc], fun x => ?_, fun hH => ?_⟩
  · rw [he2, he1, List.mem_append]
    tauto
  · obtain ⟨hnd1, hf1⟩ := hn1 hH
    obtain ⟨hnd2, hf2⟩ := hn2 hH
    constructor
    · refine List.Nodup.append hnd1 hnd2 ?_
      intro x hx1 hx2
      exact hf2 x hx2 ((he1 x).2 (Or.inr hx1))
    · intro x hx
      rcases List.mem_append.1 hx with hx | hx
      · exact hf1 x hx
      · intro hex
        exact hf2 x hx ((he1 x).2 (Or.inl hex))

theorem trace_ext_invoke (H : Prop) (st : EngState) (node_id content : String)
    (hnot : node_id ∉ st.executed) :
    trace_ext H st
      { context := alistInsert st.context node_id content,
        executed := setInsert st.executed node_id,
        step := st.step + 1, trace := st.trace ++ [node_id] } := by
  refine ⟨[node_id], rfl, fun x => ?_, fun _ => ⟨List.nodup_singleton _, ?_⟩⟩
  · simp [mem_setInsert]
  · intro x hx
    rw [List.mem_singleton] at hx
    subst hx
    exact hnot

theorem run_nodes_shape (oracle : LlmOracle) (registry : ToolRegistry) :
    ∀ (nd : List NodeData) (step : Nat) (trace : List String)
      (res : List (String × NodeOutput)) (s : Nat) (t : List String),
      run_nodes oracle registry nd step trace = Except.ok (res, s, t) →
      t = trace ++ nd.map (fun d => d.id) ∧
      res.map Prod.fst = nd.map (fun d => d.id) := by
  intro nd
  induction nd with
  | nil =>
    intro step trace res s t h
    simp only [run_nodes] at h
    injection h with h
    injection h with h1 h
    injection h with h2 h3
    subst h1 h2 h3
    simp
  | cons d rest ih =>
    intro step trace res s t h
    simp only [run_nodes] at h
    cases hex : execute_node oracle registry d.id d.node_type d.model d.prompt
        d.input d.tools (step + 1) d.outgoing with
    | error e => rw [hex] at h; simp at h
    | ok out =>
      rw [hex] at h
      dsimp only at h
      cases hrn : run_nodes oracle registry rest (step + 1) (trace ++ [d.id]) with
      | error e => rw [hrn] at h; simp at h
      | ok tri =>
        obtain ⟨res', s', t'⟩ := tri
        rw [hrn] at h
        dsimp only at h
        injection h with h
        injection h with h1 h
        injection h with h2 h3
        subst h1 h2 h3
        obtain ⟨hA, hB⟩ := ih (step + 1) (trace ++ [d.id]) res' s' t' hrn
        constructor
        · rw [hA]
          simp
        · simp [hB]

theorem store_results_shape :
    ∀ (res : List (String × NodeOutput)) (st : EngState)
      (dec : List (String × List String)),
      (store_results res st dec).1.trace = st.trace ∧
      (∀ x, x ∈ (store_results res st dec).1.executed ↔
        x ∈ st.executed ∨ x ∈ res.map Prod.fst) := by
  intro res
  induction res with
  | nil => intro st dec; exact ⟨rfl, fun x => by simp [store_results]⟩
  | cons p rest ih =>
    intro st dec
    obtain ⟨id, out⟩ := p
    simp only [store_results]
    obtain ⟨h1, h2⟩ := ih
      { st with context := alistInsert st.context id out.content,
                executed := setInsert st.executed id }
      (if out.next_nodes.isEmpty then dec else alistInsert dec id out.next_nodes)
    refine ⟨h1, fun x => ?_⟩
    rw [h2 x]
    dsimp only
    rw [mem_setInsert]
    simp only [List.map_cons, List.mem_cons]
    tauto

theorem map_id_filterMap {f : String → Option NodeData}
    (hf : ∀ id d, f id = some d → d.id = id) :
    ∀ l : List String,
      (l.filterMap f).map (fun d => d.id) = l.filter (fun id => (f id).isSome) := by
  intro l
  induction l with
  | nil => rfl
  | cons a ta ih =>
    cases hg : f a with
    | none => simp [List.filterMap_cons, hg, ih, List.filter_cons]
    | some d => simp [List.filterMap_cons, hg, ih, List.filter_cons, hf a d hg]

theorem gather_node_data_ids (eng : PipelineEngine) (st : EngState)
    (tids : List String) :
    (gather_node_data eng tids st).map (fun d => d.id) =
      ((tids.filter (fun id => !(st.executed.contains id))).filter
        (fun id => (eng.get_node id).isSome)) := by
  unfold gather_node_data
  rw [map_id_filterMap]
  · apply List.filter_congr
    intro x _
    cases hg : eng.get_node x <;> simp [hg]
  · intro id d hd
    rcases Option.map_eq_some'.1 hd with ⟨node, _, hnd⟩
    rw [← hnd]

theorem gather_ids_not_executed {eng : PipelineEngine} {st : EngState}
    {tids : List String} {x : String}
    (hx : x ∈ (gather_node_data eng tids st).map (fun d => d.id)) :
    x ∉ st.executed := by
  rw [gather_node_data_ids] at hx
  have hx1 := (List.mem_filter.1 hx).1
  have hc := (List.mem_filter.1 hx1).2
  intro hmem
  have hc2 : st.executed.contains x = true := List.elem_iff.mpr hmem
  rw [hc2] at hc
  cases hc

theorem gather_ids_nodup {eng : PipelineEngine} {st : EngState}
    {tids : List String} (hnd : tids.Nodup) :
    ((gather_node_data eng tids st).map (fun d => d.id)).Nodup := by
  rw [gather_node_data_ids]
  exact (hnd.filter _).filter _

theorem traversal_trace_ext (eng : PipelineEngine) (oracle : LlmOracle)
    (history : List Message) :
    ∀ n : Nat,
    (∀ edge st st',
      (parallel_targets_nodup eng.config → edge.edge_type = EdgeType.Parallel →
        edge.to_.as_vec.Nodup) →
      process_edge eng oracle history n edge st = Except.ok st' →
      trace_ext (parallel_targets_nodup eng.config) st st') ∧
    (∀ tids st st',
      (parallel_targets_nodup eng.config → tids.Nodup) →
      execute_parallel eng oracle history n tids st = Except.ok st' →
      trace_ext (parallel_targets_nodup eng.config) st st') ∧
    (∀ tids st st',
      execute_sequential eng oracle history n tids st = Except.ok st' →
      trace_ext (parallel_targets_nodup eng.config) st st') ∧
    (∀ tids dec st st',
      process_outgoing_all eng oracle history n tids dec st = Except.ok st' →
      trace_ext (parallel_targets_nodup eng.config) st st') ∧
    (∀ id rt st st',
      process_outgoing_edges eng oracle history n id rt st = Except.ok st' →
      trace_ext (parallel_targets_nodup eng.config) st st') ∧
    (∀ edges rt st st',
      (∀ e ∈ edges, e ∈ eng.config.edges) →
      process_edges_loop eng oracle history n edges rt st = Except.ok st' →
      trace_ext (parallel_targets_nodup eng.config) st st') := by
  intro n
  induction n with
  | zero =>
    refine ⟨?_, ?_, ?_, ?_, ?_, ?_⟩
    · intro edge st st' _ h
      simp [process_edge] at h
    · intro tids st st' _ h
      simp [execute_parallel] at h
    · intro tids st st' h
      simp [execute_sequential] at h
    · intro tids dec st st' h
      simp [process_outgoing_all] at h
    · intro id rt st st' h
      simp [process_outgoing_edges] at h
    · intro edges rt st st' _ h
      simp [process_edges_loop] at h
  | succ n ih =>
    obtain ⟨ihE, ihP, ihS, ihA, ihO, ihL⟩ := ih
    refine ⟨?_, ?_, ?_, ?_, ?_, ?_⟩
    -- process_edge
    · intro edge st st' hnd h
      simp only [process_edge] at h
      by_cases h1 : edge.to_.as_vec = ["output"]
      · rw [if_pos h1] at h
        injection h with h
        subst h
        exact trace_ext_refl _ _
      · rw [if_neg h1] at h
        by_cases h2 : edge.edge_type = EdgeType.Parallel
        · rw [if_pos h2] at h
          exact ihP _ _ _ (fun hH => hnd hH h2) h
        · rw [if_neg h2] at h
          exact ihS _ _ _ h
    -- execute_parallel
    · intro tids st st' hnd h
      simp only [execute_parallel] at h
      cases hrn : run_nodes oracle eng.tool_registry (gather_node_data eng tids st)
          st.step st.trace with
      | error e => rw [hrn] at h; simp at h
      | ok tri =>
        obtain ⟨results, step', trace'⟩ := tri
        rw [hrn] at h
        dsimp only at h
        obtain ⟨htr, hres⟩ :=
          run_nodes_shape oracle eng.tool_registry _ _ _ _ _ _ hrn
        obtain ⟨hstr, hsmem⟩ := store_results_shape results
          { st with step := step', trace := trace' } []
        have hext1 : trace_ext (parallel_targets_nodup eng.config) st
            (store_results results { st with step := step', trace := trace' } []).1 := by
          refine ⟨(gather_node_data eng tids st).map (fun d => d.id), ?_, fun x => ?_, fun hH => ?_⟩
          · rw [hstr]
            exact htr
          · rw [hsmem x, hres]
          · refine ⟨gather_ids_nodup (hnd hH), ?_⟩
            intro x hx
            exact gather_ids_not_executed hx
        exact trace_ext_trans hext1 (ihA _ _ _ _ h)
    -- execute_sequential
    · intro tids st st' h
      cases tids with
      | nil =>
        simp only [execute_sequential] at h
        injection h with h
        subst h
        exact trace_ext_refl _ _
      | cons id rest =>
        simp only [execute_sequential] at h
        by_cases h1 : id ∈ st.executed ∨ id = "output"
        · rw [if_pos h1] at h
          exact ihS _ _ _ h
        · rw [if_neg h1] at h
          cases hg : eng.get_node id with
          | none =>
            rw [hg] at h
            dsimp only at h
            exact ihS _ _ _ h
          | some node =>
            rw [hg] at h
            dsimp only at h
            cases hex : execute_node oracle eng.tool_registry id node.node_type
                (eng.get_node_model node) node.prompt
                (get_input_for_node eng.config.edges id st.context) node.tools
                (st.step + 1) (eng.get_outgoing_targets id) with
            | error e => rw [hex] at h; simp at h
            | ok out =>
              rw [hex] at h
              dsimp only at h
              cases hpo : process_outgoing_edges eng oracle history n id
                  out.next_nodes
                  { context := alistInsert st.context id out.content,
                    executed := setInsert st.executed id,
                    step := st.step + 1, trace := st.trace ++ [id] } with
              | error e => rw [hpo] at h; simp at h
              | ok st2 =>
                rw [hpo] at h
                dsimp only at h
                have hstep := trace_ext_invoke (parallel_targets_nodup eng.config)
                  st id out.content (fun hm => h1 (Or.inl hm))
                exact trace_ext_trans hstep
                  (trace_ext_trans (ihO _ _ _ _ hpo) (ihS _ _ _ h))
    -- process_outgoing_all
    · intro tids dec st st' h
      cases tids with
      | nil =>
        simp only [process_outgoing_all] at h
        injection h with h
        subst h
        exact trace_ext_refl _ _
      | cons id rest =>
        simp only [process_outgoing_all] at h
        cases hpo : process_outgoing_edges eng oracle history n id
            ((alistGet dec id).getD []) st with
        | error e => rw [hpo] at h; simp at h
        | ok st1 =>
          rw [hpo] at h
          dsimp only at h
          exact trace_ext_trans (ihO _ _ _ _ hpo) (ihA _ _ _ _ h)
    -- process_outgoing_edges
    · intro id rt st st' h
      simp only [process_outgoing_edges] at h
      refine ihL _ _ _ _ (fun e he => ?_) h
      exact (List.mem_filter.1 he).1
    -- process_edges_loop
    · intro edges rt st st' hsub h
      cases edges with
      | nil =>
        simp only [process_edges_loop] at h
        injection h with h
        subst h
        exact trace_ext_refl _ _
      | cons e rest =>
        simp only [process_edges_loop] at h
        by_cases hc1 : (e.to_.as_vec.any (fun t => st.executed.contains t)) = true
        · rw [if_pos hc1] at h
          exact ihL _ _ _ _ (fun e' he' => hsub e' (List.mem_cons_of_mem _ he')) h
        · rw [if_neg hc1] at h
          by_cases hc2 : (!rt.isEmpty &&
              !(e.to_.as_vec.any (fun t => rt.contains t))) = true
          · rw [if_pos hc2] at h
            exact ihL _ _ _ _ (fun e' he' => hsub e' (List.mem_cons_of_mem _ he')) h
          · rw [if_neg hc2] at h
            cases hpe : process_edge eng oracle history n e st with
            | error e' => rw [hpe] at h; simp at h
            | ok st1 =>
              rw [hpe] at h
              dsimp only at h
              have hE := ihE e st st1
                (fun hH hpar => hH e (hsub e (List.mem_cons_self _ _)) hpar) hpe
              exact trace_ext_trans hE
                (ihL _ _ _ _ (fun e' he' => hsub e' (List.mem_cons_of_mem _ he')) h)

theorem process_start_edges_trace_ext (eng : PipelineEngine) (oracle : LlmOracle)
    (history : List Message) (fuel : Nat) :
    ∀ edges st st', (∀ e ∈ edges, e ∈ eng.config.edges) →
      process_start_edges eng oracle history fuel edges st = Except.ok st' →
      trace_ext (parallel_targets_nodup eng.config) st st' := by
  intro edges
  induction edges with
  | nil =>
    intro st st' _ h
    simp only [process_start_edges] at h
    injection h with h
    subst h
    exact trace_ext_refl _ _
  | cons e rest ih =>
    intro st st' hsub h
    simp only [process_start_edges] at h
    cases hpe : process_edge eng oracle history fuel e st with
    | error e' => rw [hpe] at h; simp at h
    | ok st1 =>
      rw [hpe] at h
      dsimp only at h
      have hE := (traversal_trace_ext eng oracle history fuel).1 e st st1
        (fun hH hpar => hH e (hsub e (List.mem_cons_self _ _)) hpar) hpe
      exact trace_ext_trans hE
        (ih _ _ (fun e' he' => hsub e' (List.mem_cons_of_mem _ he')) h)

theorem execute_stream_trace_ext (eng : PipelineEngine) (oracle : LlmOracle)
    (fuel : Nat) (user_input : String) (history : List Message)
    (out : EngineOutput) (st' : EngState)
    (h : execute_stream eng oracle fuel user_input history = Except.ok (out, st')) :
    trace_ext (parallel_targets_nodup eng.config)
      { context := alistInsert [] "input" user_input,
        executed := [], step := 0, trace := [] } st' := by
  unfold execute_stream at h
  dsimp only at h
  cases hps : process_start_edges eng oracle history fuel
      (eng.config.edges.filter is_start_edge)
      { context := alistInsert [] "input" user_input,
        executed := [], step := 0, trace := [] } with
  | error e => rw [hps] at h; simp at h
  | ok st1 =>
    rw [hps] at h
    dsimp only at h
    have hext := process_start_edges_trace_ext eng oracle history fuel _ _ _
      (fun e he => (List.mem_filter.1 he).1) hps
    cases hf : eng.config.edges.find? is_output_edge with
    | none =>
      rw [hf] at h
      dsimp only at h
      injection h with h
      injection h with h1 h2
      subst h2
      exact hext
    | some edge =>
      rw [hf] at h
      dsimp only at h
      injection h with h
      injection h with h1 h2
      subst h2
      exact hext

/-- C2 (amended): whenever `execute_stream` succeeds, the executed set
at the end equals exactly the set of node IDs passed to
`execute_node`; and when no `parallel` edge lists the same target ID
twice, no node is invoked twice.  (The claim's unconditional
at-most-once fails — see the counterexample: a parallel edge listing a
target twice invokes it twice.) -/
theorem c2_at_most_once (eng : PipelineEngine) (oracle : LlmOracle)
    (fuel : Nat) (user_input : String) (history : List Message)
    (out : EngineOutput) (st' : EngState)
    (h : execute_stream eng oracle fuel user_input history = Except.ok (out, st')) :
    (∀ x, x ∈ st'.executed ↔ x ∈ st'.trace) ∧
    (parallel_targets_nodup eng.config → st'.trace.Nodup) := by
  obtain ⟨t, ht, he, hn⟩ := execute_stream_trace_ext eng oracle fuel user_input
    history out st' h
  have htt : st'.trace = t := by simpa using ht
  constructor
  · intro x
    rw [he x, htt]
    simp
  · intro hH
    rw [htt]
    exact (hn hH).1

/-- Witness for C2: a concrete successful run of the sequential
`input → A → output` pipeline, with the hypotheses discharged at the
computed final state. -/
theorem c2_witness :
    (∀ x, x ∈ stC2w.executed ↔ x ∈ stC2w.trace) ∧
    (parallel_targets_nodup engC2seq.config → stC2w.trace.Nodup) :=
  c2_at_most_once engC2seq silent_oracle 10 "hi" []
    (EngineOutput.Complete "hi") stC2w rfl

/-- C2 counterexample: the parallel edge `input → ["a", "a"]` invokes
node `a` twice in one `execute_stream` call — the invocation trace is
`["a", "a"]`, which has a duplicate. -/
theorem c2_counterexample :
    (execute_stream engC2dup silent_oracle 10 "x" []).map (fun p => p.2.trace) =
      Except.ok ["a", "a"] ∧
    ¬ (["a", "a"] : List String).Nodup := by
  exact ⟨rfl, by decide⟩

end Fissio
